import Mathlib

/-!
Shallow embedding of the raytracer `src/rt.c`.

C `double` arithmetic is modelled with the real numbers; the C `INFINITY`
sentinel returned by `sphere_ray_intersect` is modelled with `Option`
(`none` standing for the infinite "no intersection" distance).
The vector-algebra module (`vec3.h`) and the pixel buffer (`image.h`) are
not part of the given sources; they are modelled from the specification
(§4.1 and §6) as noted on each definition.
-/

namespace RT

/-- Modelled from the spec: §4.1 vector algebra (`vec3.h` is not under
`src/`). A 3-component real vector, also used for RGB light colors. -/
@[ext]
structure vec3 where
  x : ℝ
  y : ℝ
  z : ℝ

/-- Modelled from the spec: §4.1, componentwise addition. -/
def vec3_add (a b : vec3) : vec3 :=
  ⟨a.x + b.x, a.y + b.y, a.z + b.z⟩

/-- Modelled from the spec: §4.1, componentwise subtraction. -/
def vec3_sub (a b : vec3) : vec3 :=
  ⟨a.x - b.x, a.y - b.y, a.z - b.z⟩

/-- Modelled from the spec: §4.1, scalar multiplication. -/
def vec3_mul (a : vec3) (c : ℝ) : vec3 :=
  ⟨a.x * c, a.y * c, a.z * c⟩

/-- Modelled from the spec: §4.1, elementwise (channel-wise) product. -/
def vec3_mul_vec (a b : vec3) : vec3 :=
  ⟨a.x * b.x, a.y * b.y, a.z * b.z⟩

/-- Modelled from the spec: §4.1, dot product. -/
def vec3_dot (a b : vec3) : ℝ :=
  a.x * b.x + a.y * b.y + a.z * b.z

/-- Modelled from the spec: §4.1, cross product. -/
def vec3_cross (a b : vec3) : vec3 :=
  ⟨a.y * b.z - a.z * b.y, a.z * b.x - a.x * b.z, a.x * b.y - a.y * b.x⟩

/-- Modelled from the spec: §4.1, Euclidean length. -/
noncomputable def vec3_length (a : vec3) : ℝ :=
  Real.sqrt (vec3_dot a a)

/-- Modelled from the spec: §4.1, normalization (divide by length;
the caller guarantees a non-zero vector). -/
noncomputable def vec3_normalize (a : vec3) : vec3 :=
  ⟨a.x / vec3_length a, a.y / vec3_length a, a.z / vec3_length a⟩

/-- Modelled from the spec: §4.1,
`reflect(incident, normal) = incident − 2·(incident·normal)·normal`. -/
def vec3_reflect (incident normal : vec3) : vec3 :=
  vec3_sub incident (vec3_mul normal (2 * vec3_dot incident normal))

/-- Embedding of `struct sphere` of rt.c. -/
structure sphere where
  center : vec3
  radius : ℝ

/-- Embedding of `struct ray` of rt.c. -/
structure ray where
  source : vec3
  direction : vec3

/-- Embedding of `struct camera` of rt.c. -/
structure camera where
  center : vec3
  forward : vec3
  up : vec3
  width : ℝ
  height : ℝ
  focal_distance : ℝ

/-- Embedding of `struct intersection` of rt.c. -/
structure intersection where
  point : vec3
  normal : vec3

/-- Embedding of `focal_distance_from_fov` of rt.c: converts the FOV angle from degrees
to radians (`fov_deg * M_PI / (360 / 2)`) and returns
`(width / 2) / tan(fov_rad / 2)`. -/
noncomputable def focal_distance_from_fov (width fov_deg : ℝ) : ℝ :=
  let fov_rad := fov_deg * Real.pi / (360 / 2)
  (width / 2) / Real.tan (fov_rad / 2)

/-- Embedding of `camera_cast_ray` of rt.c: image-plane point as the ray source, and
the normalized direction from the vantage point to that source. -/
noncomputable def camera_cast_ray (cam : camera) (cam_x cam_y : ℝ) : ray :=
  let x_coeff := cam_x * cam.width
  let y_coeff := cam_y * cam.height
  let right := vec3_cross cam.forward cam.up
  let right_offset := vec3_mul right x_coeff
  let up_offset := vec3_mul cam.up y_coeff
  let offset := vec3_add right_offset up_offset
  let source := vec3_add cam.center offset
  let vantage_point_offset := vec3_mul cam.forward (-cam.focal_distance)
  let vantage_point := vec3_add vantage_point_offset cam.center
  let direction := vec3_normalize (vec3_sub source vantage_point)
  ⟨source, direction⟩

/-- The local `hypothenuse` of `sphere_ray_intersect` in rt.c:
the vector from the ray source to the sphere center. -/
def intersect_hypothenuse (r : ray) (s : sphere) : vec3 :=
  vec3_sub s.center r.source

/-- The local `hyp_len` of `sphere_ray_intersect` in rt.c. -/
noncomputable def intersect_hyp_len (r : ray) (s : sphere) : ℝ :=
  vec3_length (intersect_hypothenuse r s)

/-- The local `projection` of `sphere_ray_intersect` in rt.c: the
projection of the center-to-source vector onto the ray direction. -/
def intersect_projection (r : ray) (s : sphere) : ℝ :=
  vec3_dot (intersect_hypothenuse r s) r.direction

/-- The local `d` of `sphere_ray_intersect` in rt.c: the perpendicular
distance from the sphere center to the ray. -/
noncomputable def intersect_d (r : ray) (s : sphere) : ℝ :=
  Real.sqrt (intersect_hyp_len r s * intersect_hyp_len r s -
    intersect_projection r s * intersect_projection r s)

/-- The local `m` of `sphere_ray_intersect` in rt.c. -/
noncomputable def intersect_m (r : ray) (s : sphere) : ℝ :=
  Real.sqrt (s.radius * s.radius - intersect_d r s * intersect_d r s)

/-- The local `t0` of `sphere_ray_intersect` in rt.c. -/
noncomputable def intersect_t0 (r : ray) (s : sphere) : ℝ :=
  intersect_projection r s - intersect_m r s

/-- The local `t1` of `sphere_ray_intersect` in rt.c. -/
noncomputable def intersect_t1 (r : ray) (s : sphere) : ℝ :=
  intersect_projection r s + intersect_m r s

/-- The local `t` of `sphere_ray_intersect` in rt.c:
`t = t0; if (t < 0.) t = t1;`. -/
noncomputable def intersect_t (r : ray) (s : sphere) : ℝ :=
  if intersect_t0 r s < 0 then intersect_t1 r s else intersect_t0 r s

/-- Embedding of `sphere_ray_intersect` of rt.c, with its locals split out as the
definitions above. Returns `none` for the C `INFINITY` "no intersection"
sentinel, and `some (t, intersection)` for a finite intersection
distance `t` together with the hit point and normal. -/
noncomputable def sphere_ray_intersect (r : ray) (s : sphere) :
    Option (ℝ × intersection) :=
  if intersect_projection r s < 0 then none
  else if intersect_d r s > s.radius then none
  else
    let t := intersect_t r s
    let point := vec3_add r.source (vec3_mul r.direction t)
    let normal := vec3_normalize (vec3_sub point s.center)
    some (t, ⟨point, normal⟩)

/-- The 24-bit pixel handed to the output buffer; each channel is the
value of the C `uint8_t` channel. -/
structure rgb_pixel where
  r : ℕ
  g : ℕ
  b : ℕ

/-- Embedding of `translate_light_component` of rt.c: clamp the light component to
[0,1], then scale by 255 (the C cast to `uint8_t` truncates, i.e. floors
the non-negative product). -/
noncomputable def translate_light_component (light_comp : ℝ) : ℕ :=
  let c1 := if light_comp < 0 then 0 else light_comp
  let c2 := if c1 > 1 then 1 else c1
  (⌊c2 * 255⌋).toNat

/-- Embedding of `rgb_color_from_light` of rt.c: converts an rgb floating point light
color to 24 bit rgb, channel by channel. -/
noncomputable def rgb_color_from_light (light : vec3) : rgb_pixel :=
  ⟨translate_light_component light.x,
   translate_light_component light.y,
   translate_light_component light.z⟩

/-- The diffuse contribution computed in `main` of rt.c (lines 247-259),
parameterized by the scene constants `main` fixes inline. -/
noncomputable def diffuse_contribution (light_color surface_color
    light_direction normal : vec3) (light_intensity diffuse_kn : ℝ) : vec3 :=
  let light := vec3_mul light_color light_intensity
  let diffuse_light_color := vec3_mul_vec light surface_color
  let raw_intensity := -vec3_dot normal light_direction
  let diffuse_intensity := if raw_intensity < 0 then 0 else raw_intensity
  vec3_mul diffuse_light_color (diffuse_intensity * diffuse_kn)

/-- The specular contribution computed in `main` of rt.c (lines 261-284),
parameterized by the scene constants `main` fixes inline. -/
noncomputable def specular_contribution (light_color light_direction
    normal ray_direction : vec3) (spec_n : ℕ) (spec_ks : ℝ) : vec3 :=
  let light_reflection_dir := vec3_reflect light_direction normal
  let light_reflection_proj := -vec3_dot light_reflection_dir ray_direction
  if light_reflection_proj < 0 then ⟨0, 0, 0⟩
  else vec3_mul light_color (light_reflection_proj ^ spec_n * spec_ks)

/-- The ambient contribution computed in `main` of rt.c (lines 286-287). -/
def ambient_contribution (surface_color : vec3)
    (ambient_intensity : ℝ) : vec3 :=
  vec3_mul surface_color ambient_intensity

/-- The light-space pixel color computed in `main` of rt.c
(lines 289-292): starting from a zero color, add the ambient, diffuse and
specular contributions in that order. -/
noncomputable def shade_pixel (light_color surface_color light_direction
    normal ray_direction : vec3)
    (light_intensity diffuse_kn ambient_intensity spec_ks : ℝ)
    (spec_n : ℕ) : vec3 :=
  let pix0 : vec3 := ⟨0, 0, 0⟩
  vec3_add
    (vec3_add
      (vec3_add pix0 (ambient_contribution surface_color ambient_intensity))
      (diffuse_contribution light_color surface_color light_direction normal
        light_intensity diffuse_kn))
    (specular_contribution light_color light_direction normal ray_direction
      spec_n spec_ks)

/-- One step of the nearest-hit loop in `main` of rt.c (lines 225-237):
the candidate replaces the current best only when its distance is NOT
`>=` the best distance (with `none` standing for `INFINITY`). -/
noncomputable def best_hit_step (r : ray)
    (best : Option (ℝ × intersection)) (s : sphere) :
    Option (ℝ × intersection) :=
  match sphere_ray_intersect r s with
  | none => best
  | some (t, it) =>
    match best with
    | none => some (t, it)
    | some (bt, bit) => if t ≥ bt then some (bt, bit) else some (t, it)

/-- The nearest-hit loop of `main` of rt.c (lines 222-237) over a list of
spheres, starting from the `INFINITY` best distance. -/
noncomputable def best_hit (r : ray) (spheres : List sphere) :
    Option (ℝ × intersection) :=
  spheres.foldl (best_hit_step r) none

/-- Modelled from the spec: §6 output buffer (`image.h` is not under
`src/`): an addressable 2-D grid of pixels, as a function from
coordinates to the stored pixel. -/
def rgb_image : Type :=
  ℕ → ℕ → rgb_pixel

/-- Modelled from the spec: §6 output buffer write
`set pixel at (x, y) to color C` (`image.h` is not under `src/`). -/
def rgb_image_set (img : rgb_image) (x y : ℕ) (p : rgb_pixel) :
    rgb_image :=
  fun a b => if a = x ∧ b = y then p else img a b

/-- The scene's sphere list fixed in `main` of rt.c (lines 187-192). -/
def scene_spheres : List sphere :=
  [⟨⟨0, 10, 0⟩, 4⟩]

/-- The scene light color fixed in `main` of rt.c (line 206). -/
def scene_light_color : vec3 :=
  ⟨1, 1, 0⟩

/-- The scene light direction fixed and normalized in `main` of rt.c
(lines 207, 210). -/
noncomputable def scene_light_direction : vec3 :=
  vec3_normalize ⟨-1, 1, 1⟩

/-- The surface color fixed in `main` of rt.c (line 245). -/
def scene_surface_color : vec3 :=
  ⟨0.75, 0.125, 0.125⟩

/-- The per-pixel body of the render loop in `main` of rt.c
(lines 222-293), given the camera ray already cast for the pixel: find
the nearest hit among the spheres; when the best distance is the infinite
sentinel, do nothing; otherwise shade with the scene constants of `main`
and write the pixel at (x, y). -/
noncomputable def render_pixel (img : rgb_image) (x y : ℕ) (r : ray)
    (spheres : List sphere) : rgb_image :=
  match best_hit r spheres with
  | none => img
  | some (_, best_intersection) =>
    let pix_color := shade_pixel scene_light_color scene_surface_color
      scene_light_direction best_intersection.normal r.direction
      5 0.20 0.1 0.20 10
    rgb_image_set img x y (rgb_color_from_light pix_color)

/-! ### Theorems -/

/-- Helper: the dot product of a vector with itself is non-negative. -/
theorem vec3_dot_self_nonneg (v : vec3) : 0 ≤ vec3_dot v v := by
  simp only [vec3_dot]
  linarith [mul_self_nonneg v.x, mul_self_nonneg v.y, mul_self_nonneg v.z]

/-- Helper: once the `projection < 0` guard has passed, the chosen
distance `intersect_t` is non-negative. -/
theorem intersect_t_nonneg (r : ray) (s : sphere)
    (hp : 0 ≤ intersect_projection r s) : 0 ≤ intersect_t r s := by
  simp only [intersect_t, intersect_t1, intersect_t0, intersect_m]
  split_ifs with h0
  · exact add_nonneg hp (Real.sqrt_nonneg _)
  · exact not_lt.mp h0

/-- Helper: what a finite result of `sphere_ray_intersect` tells us:
both guards passed, the distance is `intersect_t`, and the hit point is
the source advanced by the direction scaled by `t`. -/
theorem sphere_ray_intersect_some (r : ray) (s : sphere) (t : ℝ)
    (it : intersection) (h : sphere_ray_intersect r s = some (t, it)) :
    0 ≤ intersect_projection r s ∧ intersect_d r s ≤ s.radius ∧
    t = intersect_t r s ∧
    it.point = vec3_add r.source (vec3_mul r.direction t) := by
  simp only [sphere_ray_intersect] at h
  split_ifs at h with h1 h2
  simp only [Option.some.injEq, Prod.mk.injEq] at h
  obtain ⟨ht, hit⟩ := h
  subst ht
  subst hit
  exact ⟨not_lt.mp h1, not_lt.mp h2, rfl, rfl⟩

/-- C5: `focal_distance_from_fov(w, θ)` equals `(w/2) / tan(θ_rad/2)`
with `θ_rad` the degree-to-radian conversion of `θ`, for `θ` in (0, 360)
with `θ < 180`. -/
theorem c5_focal_distance_formula (w theta : ℝ) (h0 : 0 < theta)
    (h1 : theta < 180) (h2 : theta < 360) :
    focal_distance_from_fov w theta =
      (w / 2) / Real.tan ((theta * Real.pi / 180) / 2) := by
  simp only [focal_distance_from_fov]
  norm_num

/-- Witness for C5 at width 10, FOV 80 degrees. -/
theorem c5_focal_distance_formula_witness :
    focal_distance_from_fov 10 80 =
      (10 / 2) / Real.tan ((80 * Real.pi / 180) / 2) :=
  c5_focal_distance_formula 10 80 (by norm_num) (by norm_num) (by norm_num)

/-- C6: pixel-channel conversion clamps to [0,1] first, then scales by
255: every channel maps to `⌊255 · clamp(x)⌋`, and the light color
(2.0, −0.5, 0.5) maps to channels (255, 0, 127) (max, zero, mid-range). -/
theorem c6_clamp_before_scale :
    (∀ x : ℝ,
      translate_light_component x = (⌊min 1 (max 0 x) * 255⌋).toNat) ∧
    rgb_color_from_light ⟨2, -0.5, 0.5⟩ = ⟨255, 0, 127⟩ := by
  have key : ∀ x : ℝ,
      translate_light_component x = (⌊min 1 (max 0 x) * 255⌋).toNat := by
    intro x
    simp only [translate_light_component]
    rcases lt_or_le x 0 with hx | hx
    · rw [if_pos hx, max_eq_left hx.le]
      norm_num
    · rw [if_neg (not_lt.mpr hx), max_eq_right hx]
      rcases le_or_lt x 1 with hx1 | hx1
      · rw [if_neg (not_lt.mpr hx1), min_eq_right hx1]
      · rw [if_pos hx1, min_eq_left hx1.le]
  refine ⟨key, ?_⟩
  have hmax : min (1 : ℝ) (max 0 2) = 1 := by norm_num
  have hzero : min (1 : ℝ) (max 0 (-0.5)) = 0 := by norm_num
  have hmid : min (1 : ℝ) (max 0 0.5) = 0.5 := by norm_num
  have f255 : (⌊(1 : ℝ) * 255⌋).toNat = 255 := by
    have h1 : ⌊(1 : ℝ) * 255⌋ = 255 := by norm_num
    rw [h1]
    rfl
  have f0 : (⌊(0 : ℝ) * 255⌋).toNat = 0 := by
    have h1 : ⌊(0 : ℝ) * 255⌋ = 0 := by norm_num
    rw [h1]
    rfl
  have f127 : (⌊(0.5 : ℝ) * 255⌋).toNat = 127 := by
    have h1 : ⌊(0.5 : ℝ) * 255⌋ = 127 := by
      rw [Int.floor_eq_iff]
      norm_num
    rw [h1]
    rfl
  simp only [rgb_color_from_light, key, rgb_pixel.mk.injEq]
  rw [hmax, hzero, hmid]
  exact ⟨f255, f0, f127⟩

/-- C10: whenever `sphere_ray_intersect` returns a finite distance `t`,
`t` is non-negative: past the `projection < 0` early exit the projection
is non-negative, so the fallback root `projection + m` is non-negative
even when `projection - m < 0`. -/
theorem c10_finite_distance_nonneg (r : ray) (s : sphere) (t : ℝ)
    (it : intersection) (h : sphere_ray_intersect r s = some (t, it)) :
    0 ≤ t := by
  obtain ⟨hp, -, ht, -⟩ := sphere_ray_intersect_some r s t it h
  rw [ht]
  exact intersect_t_nonneg r s hp

/-- C2: `sphere_ray_intersect` returns the infinite no-intersection
sentinel (modelled as `none`) exactly when the projection of the
center-to-origin vector onto the ray direction is negative, or the
perpendicular distance from the center to the ray exceeds the radius;
otherwise it returns a finite distance. -/
theorem c2_infinity_sentinel_iff_miss (r : ray) (s : sphere) :
    sphere_ray_intersect r s = none ↔
      (intersect_projection r s < 0 ∨ intersect_d r s > s.radius) := by
  simp only [sphere_ray_intersect]
  split_ifs with h1 h2
  · simp [h1]
  · simp [h1, h2]
  · simp [h1, h2]

/-- C1: for a unit-direction ray and positive-radius sphere, when
`sphere_ray_intersect` returns a finite distance `t`, then with
`t0 = projection − m` and `t1 = projection + m` the chosen `t` equals
`t0` if `t0 ≥ 0` and `t1` otherwise. -/
theorem c1_finite_distance_root_choice (r : ray) (s : sphere) (t : ℝ)
    (it : intersection) (hu : vec3_length r.direction = 1)
    (hr : 0 < s.radius) (h : sphere_ray_intersect r s = some (t, it)) :
    t = (if 0 ≤ intersect_t0 r s then intersect_t0 r s
         else intersect_t1 r s) ∧
    vec3_dot (vec3_sub it.point s.center) (vec3_sub it.point s.center) =
      s.radius * s.radius ∧
    0 ≤ t ∧
    ∀ u : ℝ, (u = intersect_t0 r s ∨ u = intersect_t1 r s) → 0 ≤ u →
      t ≤ u := by
  obtain ⟨hp, hd, ht, hpt⟩ := sphere_ray_intersect_some r s t it h
  have hm0 : 0 ≤ intersect_m r s := Real.sqrt_nonneg _
  have ht01 : intersect_t0 r s ≤ intersect_t1 r s := by
    simp only [intersect_t0, intersect_t1]
    linarith
  have hchoice : t = if 0 ≤ intersect_t0 r s then intersect_t0 r s
      else intersect_t1 r s := by
    rw [ht, intersect_t]
    rcases le_or_lt 0 (intersect_t0 r s) with h0 | h0
    · rw [if_neg (not_lt.mpr h0), if_pos h0]
    · rw [if_pos h0, if_neg (not_le.mpr h0)]
  -- the distance satisfies the ray-sphere equation
  have hdotL : vec3_length (intersect_hypothenuse r s) *
      vec3_length (intersect_hypothenuse r s) =
      vec3_dot (intersect_hypothenuse r s) (intersect_hypothenuse r s) := by
    simp only [vec3_length]
    exact Real.mul_self_sqrt (vec3_dot_self_nonneg _)
  have hDD : vec3_dot r.direction r.direction = 1 := by
    have hlen := hu
    simp only [vec3_length] at hlen
    have hnn : (0 : ℝ) ≤ vec3_dot r.direction r.direction :=
      vec3_dot_self_nonneg _
    nlinarith [Real.sq_sqrt hnn, Real.sqrt_nonneg
      (vec3_dot r.direction r.direction)]
  have hCS : intersect_projection r s * intersect_projection r s ≤
      vec3_dot (intersect_hypothenuse r s) (intersect_hypothenuse r s) := by
    simp only [intersect_projection, vec3_dot] at hDD ⊢
    set L := intersect_hypothenuse r s
    set D := r.direction
    nlinarith [sq_nonneg (L.x * D.y - L.y * D.x),
      sq_nonneg (L.x * D.z - L.z * D.x), sq_nonneg (L.y * D.z - L.z * D.y)]
  have hd2 : intersect_d r s * intersect_d r s =
      vec3_dot (intersect_hypothenuse r s) (intersect_hypothenuse r s) -
        intersect_projection r s * intersect_projection r s := by
    simp only [intersect_d, intersect_hyp_len]
    rw [hdotL]
    exact Real.mul_self_sqrt (by linarith)
  have hm2 : intersect_m r s * intersect_m r s =
      s.radius * s.radius - intersect_d r s * intersect_d r s := by
    simp only [intersect_m]
    have hd0 : 0 ≤ intersect_d r s := Real.sqrt_nonneg _
    exact Real.mul_self_sqrt (by nlinarith)
  have hroot : vec3_dot (vec3_sub it.point s.center)
      (vec3_sub it.point s.center) = s.radius * s.radius := by
    have hexp : vec3_dot (vec3_sub it.point s.center)
        (vec3_sub it.point s.center) =
        t * t * vec3_dot r.direction r.direction -
        2 * t * intersect_projection r s +
        vec3_dot (intersect_hypothenuse r s) (intersect_hypothenuse r s) := by
      rw [hpt]
      simp only [vec3_dot, vec3_sub, vec3_add, vec3_mul,
        intersect_projection, intersect_hypothenuse]
      ring
    have htm : (t - intersect_projection r s) * (t - intersect_projection r s)
        = intersect_m r s * intersect_m r s := by
      rw [hchoice]
      split_ifs
      · simp only [intersect_t0]; ring
      · simp only [intersect_t1]; ring
    rw [hexp, hDD]
    nlinarith [htm, hm2, hd2]
  refine ⟨hchoice, hroot, ?_, ?_⟩
  · rw [ht]
    exact intersect_t_nonneg r s hp
  · intro u hu0 hu1
    rcases hu0 with hu0 | hu0 <;> subst hu0
    · rw [hchoice, if_pos hu1]
    · rw [hchoice]
      split_ifs with h0
      · linarith
      · linarith

/-- Helper: concrete evaluation of `sphere_ray_intersect` on the spec's
§8 example: ray from the origin along (0,1,0) against the sphere at
(0,10,0) with radius 4 hits at distance 6, point (0,6,0), normal
(0,−1,0). -/
theorem sphere_ray_intersect_example :
    sphere_ray_intersect ⟨⟨0, 0, 0⟩, ⟨0, 1, 0⟩⟩ ⟨⟨0, 10, 0⟩, 4⟩ =
      some (6, ⟨⟨0, 6, 0⟩, ⟨0, -1, 0⟩⟩) := by
  have h100 : Real.sqrt 100 = 10 := by
    rw [show (100 : ℝ) = 10 ^ 2 by norm_num,
      Real.sqrt_sq (by norm_num : (0 : ℝ) ≤ 10)]
  have h16 : Real.sqrt 16 = 4 := by
    rw [show (16 : ℝ) = 4 ^ 2 by norm_num,
      Real.sqrt_sq (by norm_num : (0 : ℝ) ≤ 4)]
  have hhyp : intersect_hypothenuse ⟨⟨0, 0, 0⟩, ⟨0, 1, 0⟩⟩ ⟨⟨0, 10, 0⟩, 4⟩ =
      ⟨0, 10, 0⟩ := by
    simp [intersect_hypothenuse, vec3_sub]
  have hp : intersect_projection ⟨⟨0, 0, 0⟩, ⟨0, 1, 0⟩⟩ ⟨⟨0, 10, 0⟩, 4⟩ =
      10 := by
    rw [intersect_projection, hhyp]
    simp [vec3_dot]
  have hl : intersect_hyp_len ⟨⟨0, 0, 0⟩, ⟨0, 1, 0⟩⟩ ⟨⟨0, 10, 0⟩, 4⟩ =
      10 := by
    rw [intersect_hyp_len, hhyp]
    simp only [vec3_length, vec3_dot]
    norm_num [h100]
  have hd : intersect_d ⟨⟨0, 0, 0⟩, ⟨0, 1, 0⟩⟩ ⟨⟨0, 10, 0⟩, 4⟩ = 0 := by
    rw [intersect_d, hl, hp]
    norm_num [Real.sqrt_zero]
  have hm : intersect_m ⟨⟨0, 0, 0⟩, ⟨0, 1, 0⟩⟩ ⟨⟨0, 10, 0⟩, 4⟩ = 4 := by
    rw [intersect_m, hd]
    norm_num [h16]
  have ht0 : intersect_t0 ⟨⟨0, 0, 0⟩, ⟨0, 1, 0⟩⟩ ⟨⟨0, 10, 0⟩, 4⟩ = 6 := by
    rw [intersect_t0, hp, hm]
    norm_num
  have ht : intersect_t ⟨⟨0, 0, 0⟩, ⟨0, 1, 0⟩⟩ ⟨⟨0, 10, 0⟩, 4⟩ = 6 := by
    rw [intersect_t, ht0]
    norm_num
  simp only [sphere_ray_intersect, hp, hd, ht]
  norm_num [vec3_add, vec3_mul, vec3_sub, vec3_normalize, vec3_length,
    vec3_dot, h16]

/-- Witness for C10 on the §8 example ray and sphere. -/
theorem c10_finite_distance_nonneg_witness :
    sphere_ray_intersect ⟨⟨0, 0, 0⟩, ⟨0, 1, 0⟩⟩ ⟨⟨0, 10, 0⟩, 4⟩ =
      some (6, ⟨⟨0, 6, 0⟩, ⟨0, -1, 0⟩⟩) ∧ (0 : ℝ) ≤ 6 :=
  ⟨sphere_ray_intersect_example,
   c10_finite_distance_nonneg ⟨⟨0, 0, 0⟩, ⟨0, 1, 0⟩⟩ ⟨⟨0, 10, 0⟩, 4⟩ 6
     ⟨⟨0, 6, 0⟩, ⟨0, -1, 0⟩⟩ sphere_ray_intersect_example⟩

/-- Witness for C1 on the §8 example ray and sphere. -/
theorem c1_finite_distance_root_choice_witness :
    vec3_length ⟨0, 1, 0⟩ = 1 ∧ (0 : ℝ) < 4 ∧
    ((6 : ℝ) =
      (if 0 ≤ intersect_t0 ⟨⟨0, 0, 0⟩, ⟨0, 1, 0⟩⟩ ⟨⟨0, 10, 0⟩, 4⟩ then
        intersect_t0 ⟨⟨0, 0, 0⟩, ⟨0, 1, 0⟩⟩ ⟨⟨0, 10, 0⟩, 4⟩
       else intersect_t1 ⟨⟨0, 0, 0⟩, ⟨0, 1, 0⟩⟩ ⟨⟨0, 10, 0⟩, 4⟩) ∧
     vec3_dot (vec3_sub (intersection.mk ⟨0, 6, 0⟩ ⟨0, -1, 0⟩).point
         ⟨0, 10, 0⟩)
       (vec3_sub (intersection.mk ⟨0, 6, 0⟩ ⟨0, -1, 0⟩).point ⟨0, 10, 0⟩) =
       4 * 4 ∧
     (0 : ℝ) ≤ 6 ∧
     ∀ u : ℝ,
       (u = intersect_t0 ⟨⟨0, 0, 0⟩, ⟨0, 1, 0⟩⟩ ⟨⟨0, 10, 0⟩, 4⟩ ∨
        u = intersect_t1 ⟨⟨0, 0, 0⟩, ⟨0, 1, 0⟩⟩ ⟨⟨0, 10, 0⟩, 4⟩) →
       0 ≤ u → (6 : ℝ) ≤ u) :=
  ⟨by simp only [vec3_length, vec3_dot]; norm_num [Real.sqrt_one],
   by norm_num,
   c1_finite_distance_root_choice ⟨⟨0, 0, 0⟩, ⟨0, 1, 0⟩⟩ ⟨⟨0, 10, 0⟩, 4⟩ 6
     ⟨⟨0, 6, 0⟩, ⟨0, -1, 0⟩⟩
     (by simp only [vec3_length, vec3_dot]; norm_num [Real.sqrt_one])
     (by norm_num) sphere_ray_intersect_example⟩

/-- C4: `camera_cast_ray` sets the ray source to
`center + right·(cam_x·width) + up·(cam_y·height)` with
`right = forward × up`, and the direction to the normalization of
`source − vantage_point` with `vantage_point = center − forward·focal`;
in particular a camera at the origin with forward (0,1,0), up (0,0,1),
width 10, height 10 and a positive focal distance casts the ray at
(0,0) from the origin in direction (0,1,0). -/
theorem c4_camera_cast_ray_spec :
    (∀ cam : camera, ∀ cx cy : ℝ,
      (camera_cast_ray cam cx cy).source =
        vec3_add cam.center
          (vec3_add
            (vec3_mul (vec3_cross cam.forward cam.up) (cx * cam.width))
            (vec3_mul cam.up (cy * cam.height))) ∧
      (camera_cast_ray cam cx cy).direction =
        vec3_normalize (vec3_sub (camera_cast_ray cam cx cy).source
          (vec3_sub cam.center
            (vec3_mul cam.forward cam.focal_distance)))) ∧
    (∀ f : ℝ, 0 < f →
      camera_cast_ray ⟨⟨0, 0, 0⟩, ⟨0, 1, 0⟩, ⟨0, 0, 1⟩, 10, 10, f⟩ 0 0 =
        ⟨⟨0, 0, 0⟩, ⟨0, 1, 0⟩⟩) := by
  constructor
  · intro cam cx cy
    have hvantage : vec3_add (vec3_mul cam.forward (-cam.focal_distance))
        cam.center =
        vec3_sub cam.center (vec3_mul cam.forward cam.focal_distance) := by
      ext <;> simp [vec3_add, vec3_sub, vec3_mul] <;> ring
    constructor
    · rfl
    · simp only [camera_cast_ray]
      rw [hvantage]
  · intro f hf
    have hsq : Real.sqrt (f * f) = f := Real.sqrt_mul_self hf.le
    simp only [camera_cast_ray, vec3_cross, vec3_mul, vec3_add, vec3_sub,
      vec3_normalize, vec3_length, vec3_dot, ray.mk.injEq, vec3.mk.injEq]
    norm_num
    rw [hsq]
    exact div_self hf.ne'

/-- Witness for C4 with focal distance 1. -/
theorem c4_camera_cast_ray_spec_witness :
    (0 : ℝ) < 1 ∧
    camera_cast_ray ⟨⟨0, 0, 0⟩, ⟨0, 1, 0⟩, ⟨0, 0, 1⟩, 10, 10, 1⟩ 0 0 =
      ⟨⟨0, 0, 0⟩, ⟨0, 1, 0⟩⟩ :=
  ⟨by norm_num, c4_camera_cast_ray_spec.2 1 (by norm_num)⟩

/-- Helper: adding the zero color on the left is the identity. -/
theorem vec3_add_zero_left (v : vec3) : vec3_add ⟨0, 0, 0⟩ v = v := by
  ext <;> simp [vec3_add]

/-- C7: the diffuse contribution equals
`(light_color · intensity) ⊙ surface_color` scaled by
`max(0, −N·L_dir) · k_d`, and is the zero vector whenever
`N·L_dir ≥ 0`. -/
theorem c7_diffuse_term_spec (light_color surface_color light_direction
    normal : vec3) (light_intensity diffuse_kn : ℝ) :
    diffuse_contribution light_color surface_color light_direction normal
        light_intensity diffuse_kn =
      vec3_mul
        (vec3_mul_vec (vec3_mul light_color light_intensity) surface_color)
        (max 0 (-vec3_dot normal light_direction) * diffuse_kn) ∧
    (0 ≤ vec3_dot normal light_direction →
      diffuse_contribution light_color surface_color light_direction normal
        light_intensity diffuse_kn = ⟨0, 0, 0⟩) := by
  have key : diffuse_contribution light_color surface_color light_direction
      normal light_intensity diffuse_kn =
      vec3_mul
        (vec3_mul_vec (vec3_mul light_color light_intensity) surface_color)
        (max 0 (-vec3_dot normal light_direction) * diffuse_kn) := by
    simp only [diffuse_contribution]
    rcases lt_or_le (-vec3_dot normal light_direction) 0 with h | h
    · rw [if_pos h, max_eq_left h.le]
    · rw [if_neg (not_lt.mpr h), max_eq_right h]
  refine ⟨key, ?_⟩
  intro h0
  rw [key, max_eq_left (by linarith)]
  simp [vec3_mul]

/-- Witness for C7: with normal (0,0,1) and light direction (0,0,1) the
dot product is non-negative and the diffuse contribution vanishes. -/
theorem c7_diffuse_term_spec_witness :
    0 ≤ vec3_dot ⟨0, 0, 1⟩ ⟨0, 0, 1⟩ ∧
    diffuse_contribution ⟨1, 1, 0⟩ ⟨0.75, 0.125, 0.125⟩ ⟨0, 0, 1⟩
      ⟨0, 0, 1⟩ 5 0.20 = ⟨0, 0, 0⟩ :=
  ⟨by norm_num [vec3_dot],
   (c7_diffuse_term_spec ⟨1, 1, 0⟩ ⟨0.75, 0.125, 0.125⟩ ⟨0, 0, 1⟩
     ⟨0, 0, 1⟩ 5 0.20).2 (by norm_num [vec3_dot])⟩

/-- C8: the specular contribution is `light_color` scaled by
`max(0, −R·D)^n · k_s` with `R` the light direction reflected about the
normal and `D` the view ray direction, it is the zero vector when
`−R·D ≤ 0`, and the final light-space color is the unclamped sum
`ambient + diffuse + specular` with `ambient = surface_color · ambient
intensity`. -/
theorem c8_specular_and_final_sum (light_color surface_color
    light_direction normal ray_direction : vec3)
    (light_intensity diffuse_kn ambient_intensity spec_ks : ℝ)
    (spec_n : ℕ) (hn : 0 < spec_n) :
    specular_contribution light_color light_direction normal ray_direction
        spec_n spec_ks =
      vec3_mul light_color
        (max 0 (-vec3_dot (vec3_reflect light_direction normal)
          ray_direction) ^ spec_n * spec_ks) ∧
    (-vec3_dot (vec3_reflect light_direction normal) ray_direction ≤ 0 →
      specular_contribution light_color light_direction normal
        ray_direction spec_n spec_ks = ⟨0, 0, 0⟩) ∧
    shade_pixel light_color surface_color light_direction normal
        ray_direction light_intensity diffuse_kn ambient_intensity
        spec_ks spec_n =
      vec3_add
        (vec3_add (ambient_contribution surface_color ambient_intensity)
          (diffuse_contribution light_color surface_color light_direction
            normal light_intensity diffuse_kn))
        (specular_contribution light_color light_direction normal
          ray_direction spec_n spec_ks) := by
  have key : specular_contribution light_color light_direction normal
      ray_direction spec_n spec_ks =
      vec3_mul light_color
        (max 0 (-vec3_dot (vec3_reflect light_direction normal)
          ray_direction) ^ spec_n * spec_ks) := by
    simp only [specular_contribution]
    rcases lt_or_le
        (-vec3_dot (vec3_reflect light_direction normal) ray_direction) 0
        with h | h
    · rw [if_pos h, max_eq_left h.le, zero_pow hn.ne', zero_mul]
      simp [vec3_mul]
    · rw [if_neg (not_lt.mpr h), max_eq_right h]
  refine ⟨key, ?_, ?_⟩
  · intro h0
    rw [key, max_eq_left h0, zero_pow hn.ne', zero_mul]
    simp [vec3_mul]
  · simp only [shade_pixel]
    rw [vec3_add_zero_left]

/-- Witness for C8: with light direction (0,0,1), normal (0,0,1) and
view direction (0,0,−1) the reflected light points away from the camera
and the specular contribution vanishes. -/
theorem c8_specular_and_final_sum_witness :
    (0 < 10) ∧
    -vec3_dot (vec3_reflect ⟨0, 0, 1⟩ ⟨0, 0, 1⟩) ⟨0, 0, -1⟩ ≤ 0 ∧
    specular_contribution ⟨1, 1, 0⟩ ⟨0, 0, 1⟩ ⟨0, 0, 1⟩ ⟨0, 0, -1⟩
      10 0.20 = ⟨0, 0, 0⟩ :=
  ⟨by norm_num,
   by norm_num [vec3_dot, vec3_reflect, vec3_sub, vec3_mul],
   (c8_specular_and_final_sum ⟨1, 1, 0⟩ ⟨0.75, 0.125, 0.125⟩ ⟨0, 0, 1⟩
     ⟨0, 0, 1⟩ ⟨0, 0, -1⟩ 5 0.20 0.1 0.20 10 (by norm_num)).2.1
     (by norm_num [vec3_dot, vec3_reflect, vec3_sub, vec3_mul])⟩

/-- Helper: concrete evaluation of `sphere_ray_intersect` on the spec's
§8 miss example: the ray from the origin along (1,0,0) misses the sphere
at (0,10,0) with radius 4. -/
theorem sphere_ray_intersect_miss_example :
    sphere_ray_intersect ⟨⟨0, 0, 0⟩, ⟨1, 0, 0⟩⟩ ⟨⟨0, 10, 0⟩, 4⟩ =
      none := by
  have h100 : Real.sqrt 100 = 10 := by
    rw [show (100 : ℝ) = 10 ^ 2 by norm_num,
      Real.sqrt_sq (by norm_num : (0 : ℝ) ≤ 10)]
  have hhyp : intersect_hypothenuse ⟨⟨0, 0, 0⟩, ⟨1, 0, 0⟩⟩ ⟨⟨0, 10, 0⟩, 4⟩ =
      ⟨0, 10, 0⟩ := by
    simp [intersect_hypothenuse, vec3_sub]
  have hp : intersect_projection ⟨⟨0, 0, 0⟩, ⟨1, 0, 0⟩⟩ ⟨⟨0, 10, 0⟩, 4⟩ =
      0 := by
    rw [intersect_projection, hhyp]
    simp [vec3_dot]
  have hl : intersect_hyp_len ⟨⟨0, 0, 0⟩, ⟨1, 0, 0⟩⟩ ⟨⟨0, 10, 0⟩, 4⟩ =
      10 := by
    rw [intersect_hyp_len, hhyp]
    simp only [vec3_length, vec3_dot]
    norm_num [h100]
  have hd : intersect_d ⟨⟨0, 0, 0⟩, ⟨1, 0, 0⟩⟩ ⟨⟨0, 10, 0⟩, 4⟩ = 10 := by
    rw [intersect_d, hl, hp]
    norm_num [h100]
  simp only [sphere_ray_intersect, hp, hd]
  norm_num

/-- Helper: with the miss ray of the §8 example, the nearest-hit loop
over the scene's sphere list reports the infinite sentinel. -/
theorem best_hit_miss_example :
    best_hit ⟨⟨0, 0, 0⟩, ⟨1, 0, 0⟩⟩ scene_spheres = none := by
  simp only [best_hit, scene_spheres, List.foldl, best_hit_step,
    sphere_ray_intersect_miss_example]

/-- C9: for a pixel whose camera ray intersects no sphere (the nearest
distance is the infinite sentinel), the render loop body performs no
shading and no buffer write: the whole pixel buffer is returned
unchanged. -/
theorem c9_no_hit_no_write (img : rgb_image) (x y : ℕ) (r : ray)
    (spheres : List sphere) (h : best_hit r spheres = none) :
    render_pixel img x y r spheres = img := by
  simp only [render_pixel, h]

/-- Witness for C9 on the §8 miss ray against the scene spheres. -/
theorem c9_no_hit_no_write_witness :
    best_hit ⟨⟨0, 0, 0⟩, ⟨1, 0, 0⟩⟩ scene_spheres = none ∧
    render_pixel (fun _ _ => ⟨0, 0, 0⟩) 0 0 ⟨⟨0, 0, 0⟩, ⟨1, 0, 0⟩⟩
      scene_spheres = fun _ _ => ⟨0, 0, 0⟩ :=
  ⟨best_hit_miss_example,
   c9_no_hit_no_write (fun _ _ => ⟨0, 0, 0⟩) 0 0 ⟨⟨0, 0, 0⟩, ⟨1, 0, 0⟩⟩
     scene_spheres best_hit_miss_example⟩

/-- Helper: invariant of the nearest-hit fold, generalized over the
accumulator: the fold is `none` only if the accumulator was `none` and
every sphere missed; a `some` result lower-bounds every hit in the list,
and is either the untouched accumulator or the hit of some list element
all of whose predecessors (and the accumulator) had strictly greater
distances. -/
theorem best_hit_foldl_spec (r : ray) (ss : List sphere) :
    ∀ acc : Option (ℝ × intersection),
      (ss.foldl (best_hit_step r) acc = none →
        acc = none ∧ ∀ s ∈ ss, sphere_ray_intersect r s = none) ∧
      (∀ bt bit, ss.foldl (best_hit_step r) acc = some (bt, bit) →
        (∀ s ∈ ss, ∀ u iu, sphere_ray_intersect r s = some (u, iu) →
          bt ≤ u) ∧
        (acc = some (bt, bit) ∨
         ∃ pre s post, ss = pre ++ s :: post ∧
           sphere_ray_intersect r s = some (bt, bit) ∧
           (∀ a ai, acc = some (a, ai) → bt < a) ∧
           (∀ s' ∈ pre, ∀ u iu,
             sphere_ray_intersect r s' = some (u, iu) → bt < u))) := by
  induction ss with
  | nil =>
    intro acc
    refine ⟨fun h => ⟨h, by simp⟩, fun bt bit h => ⟨by simp, Or.inl h⟩⟩
  | cons s₀ rest ih =>
    intro acc
    have hfold : (s₀ :: rest).foldl (best_hit_step r) acc =
        rest.foldl (best_hit_step r) (best_hit_step r acc s₀) := rfl
    rcases hstep : sphere_ray_intersect r s₀ with - | ⟨u, iu⟩
    · -- s₀ misses: the accumulator passes through unchanged
      have hacc : best_hit_step r acc s₀ = acc := by
        simp [best_hit_step, hstep]
      constructor
      · intro h
        rw [hfold, hacc] at h
        obtain ⟨ha, hrest⟩ := (ih acc).1 h
        refine ⟨ha, fun s hs => ?_⟩
        rcases List.mem_cons.mp hs with rfl | hs
        · exact hstep
        · exact hrest s hs
      · intro bt bit h
        rw [hfold, hacc] at h
        obtain ⟨hbound, hprov⟩ := (ih acc).2 bt bit h
        constructor
        · intro s hs u' iu' hu'
          rcases List.mem_cons.mp hs with rfl | hs
          · rw [hstep] at hu'
            exact Option.noConfusion hu'
          · exact hbound s hs u' iu' hu'
        · rcases hprov with hl | ⟨pre, s, post, hss, hsint, haccc, hpre⟩
          · exact Or.inl hl
          · refine Or.inr ⟨s₀ :: pre, s, post, by simp [hss], hsint,
              haccc, fun s' hs' u' iu' hu' => ?_⟩
            rcases List.mem_cons.mp hs' with rfl | hs'
            · rw [hstep] at hu'
              exact Option.noConfusion hu'
            · exact hpre s' hs' u' iu' hu'
    · -- s₀ hits at distance u
      rcases acc with - | ⟨a, ai⟩
      · -- the accumulator was the infinite sentinel: s₀'s hit replaces it
        have hacc : best_hit_step r none s₀ = some (u, iu) := by
          simp [best_hit_step, hstep]
        constructor
        · intro h
          rw [hfold, hacc] at h
          obtain ⟨ha, -⟩ := (ih (some (u, iu))).1 h
          exact Option.noConfusion ha
        · intro bt bit h
          rw [hfold, hacc] at h
          obtain ⟨hbound, hprov⟩ := (ih (some (u, iu))).2 bt bit h
          rcases hprov with hl | ⟨pre, s, post, hss, hsint, haccc, hpre⟩
          · simp only [Option.some.injEq, Prod.mk.injEq] at hl
            obtain ⟨hub, hib⟩ := hl
            constructor
            · intro s hs u' iu' hu'
              rcases List.mem_cons.mp hs with rfl | hs
              · rw [hstep] at hu'
                simp only [Option.some.injEq, Prod.mk.injEq] at hu'
                rw [← hu'.1, hub]
              · exact hbound s hs u' iu' hu'
            · refine Or.inr ⟨[], s₀, rest, rfl, ?_,
                fun a ai ha => Option.noConfusion ha, by simp⟩
              rw [hstep, hub, hib]
          · have hbtu : bt < u := haccc u iu rfl
            constructor
            · intro s hs u' iu' hu'
              rcases List.mem_cons.mp hs with rfl | hs
              · rw [hstep] at hu'
                simp only [Option.some.injEq, Prod.mk.injEq] at hu'
                rw [← hu'.1]
                exact hbtu.le
              · exact hbound s hs u' iu' hu'
            · refine Or.inr ⟨s₀ :: pre, s, post, by simp [hss], hsint,
                fun a ai ha => Option.noConfusion ha,
                fun s' hs' u' iu' hu' => ?_⟩
              rcases List.mem_cons.mp hs' with rfl | hs'
              · rw [hstep] at hu'
                simp only [Option.some.injEq, Prod.mk.injEq] at hu'
                rw [← hu'.1]
                exact hbtu
              · exact hpre s' hs' u' iu' hu'
      · -- the accumulator already held a hit at distance a
        by_cases hua : u ≥ a
        · -- not strictly smaller: the accumulator is kept
          have hacc : best_hit_step r (some (a, ai)) s₀ = some (a, ai) := by
            simp [best_hit_step, hstep, hua]
          constructor
          · intro h
            rw [hfold, hacc] at h
            obtain ⟨ha, -⟩ := (ih (some (a, ai))).1 h
            exact Option.noConfusion ha
          · intro bt bit h
            rw [hfold, hacc] at h
            obtain ⟨hbound, hprov⟩ := (ih (some (a, ai))).2 bt bit h
            rcases hprov with hl | ⟨pre, s, post, hss, hsint, haccc, hpre⟩
            · simp only [Option.some.injEq, Prod.mk.injEq] at hl
              obtain ⟨hab, hib⟩ := hl
              constructor
              · intro s hs u' iu' hu'
                rcases List.mem_cons.mp hs with rfl | hs
                · rw [hstep] at hu'
                  simp only [Option.some.injEq, Prod.mk.injEq] at hu'
                  rw [← hu'.1, ← hab]
                  exact hua
                · exact hbound s hs u' iu' hu'
              · exact Or.inl (by rw [hab, hib])
            · have hbta : bt < a := haccc a ai rfl
              constructor
              · intro s hs u' iu' hu'
                rcases List.mem_cons.mp hs with rfl | hs
                · rw [hstep] at hu'
                  simp only [Option.some.injEq, Prod.mk.injEq] at hu'
                  rw [← hu'.1]
                  exact le_of_lt (lt_of_lt_of_le hbta hua)
                · exact hbound s hs u' iu' hu'
              · refine Or.inr ⟨s₀ :: pre, s, post, by simp [hss], hsint,
                  fun a' ai' ha' => ?_, fun s' hs' u' iu' hu' => ?_⟩
                · simp only [Option.some.injEq, Prod.mk.injEq] at ha'
                  rw [← ha'.1]
                  exact hbta
                · rcases List.mem_cons.mp hs' with rfl | hs'
                  · rw [hstep] at hu'
                    simp only [Option.some.injEq, Prod.mk.injEq] at hu'
                    rw [← hu'.1]
                    exact lt_of_lt_of_le hbta hua
                  · exact hpre s' hs' u' iu' hu'
        · -- strictly smaller: s₀'s hit replaces the accumulator
          have hau : u < a := not_le.mp hua
          have hacc : best_hit_step r (some (a, ai)) s₀ = some (u, iu) := by
            simp [best_hit_step, hstep, hua]
          constructor
          · intro h
            rw [hfold, hacc] at h
            obtain ⟨ha, -⟩ := (ih (some (u, iu))).1 h
            exact Option.noConfusion ha
          · intro bt bit h
            rw [hfold, hacc] at h
            obtain ⟨hbound, hprov⟩ := (ih (some (u, iu))).2 bt bit h
            rcases hprov with hl | ⟨pre, s, post, hss, hsint, haccc, hpre⟩
            · simp only [Option.some.injEq, Prod.mk.injEq] at hl
              obtain ⟨hub, hib⟩ := hl
              constructor
              · intro s hs u' iu' hu'
                rcases List.mem_cons.mp hs with rfl | hs
                · rw [hstep] at hu'
                  simp only [Option.some.injEq, Prod.mk.injEq] at hu'
                  rw [← hu'.1, hub]
                · exact hbound s hs u' iu' hu'
              · refine Or.inr ⟨[], s₀, rest, rfl, ?_, fun a' ai' ha' => ?_,
                  by simp⟩
                · rw [hstep, hub, hib]
                · simp only [Option.some.injEq, Prod.mk.injEq] at ha'
                  rw [← ha'.1, ← hub]
                  exact hau
            · have hbtu : bt < u := haccc u iu rfl
              constructor
              · intro s hs u' iu' hu'
                rcases List.mem_cons.mp hs with rfl | hs
                · rw [hstep] at hu'
                  simp only [Option.some.injEq, Prod.mk.injEq] at hu'
                  rw [← hu'.1]
                  exact hbtu.le
                · exact hbound s hs u' iu' hu'
              · refine Or.inr ⟨s₀ :: pre, s, post, by simp [hss], hsint,
                  fun a' ai' ha' => ?_, fun s' hs' u' iu' hu' => ?_⟩
                · simp only [Option.some.injEq, Prod.mk.injEq] at ha'
                  rw [← ha'.1]
                  exact lt_trans hbtu hau
                · rcases List.mem_cons.mp hs' with rfl | hs'
                  · rw [hstep] at hu'
                    simp only [Option.some.injEq, Prod.mk.injEq] at hu'
                    rw [← hu'.1]
                    exact hbtu
                  · exact hpre s' hs' u' iu' hu'

/-- C3: the nearest-hit loop keeps the intersection with the strictly
smallest finite distance among all spheres: a `none` result means every
sphere missed; a `some (bt, bit)` result lower-bounds every hit, comes
from a sphere of the list that reported exactly `(bt, bit)`, every
earlier sphere's hit is strictly greater (so on ties the
first-encountered sphere is kept); and a later candidate replaces the
current best only if its distance is strictly smaller. -/
theorem c3_nearest_hit_selection (r : ray) (ss : List sphere) :
    (best_hit r ss = none → ∀ s ∈ ss, sphere_ray_intersect r s = none) ∧
    (∀ bt bit, best_hit r ss = some (bt, bit) →
      (∀ s ∈ ss, ∀ u iu, sphere_ray_intersect r s = some (u, iu) →
        bt ≤ u) ∧
      ∃ pre s post, ss = pre ++ s :: post ∧
        sphere_ray_intersect r s = some (bt, bit) ∧
        ∀ s' ∈ pre, ∀ u iu, sphere_ray_intersect r s' = some (u, iu) →
          bt < u) ∧
    (∀ bt bit s u iu, sphere_ray_intersect r s = some (u, iu) →
      best_hit_step r (some (bt, bit)) s =
        if u < bt then some (u, iu) else some (bt, bit)) := by
  obtain ⟨h1, h2⟩ := best_hit_foldl_spec r ss none
  refine ⟨fun h => ((h1 h).2), fun bt bit h => ?_, ?_⟩
  · obtain ⟨hb, hp⟩ := h2 bt bit h
    refine ⟨hb, ?_⟩
    rcases hp with hl | ⟨pre, s, post, hss, hsint, -, hpre⟩
    · exact Option.noConfusion hl
    · exact ⟨pre, s, post, hss, hsint, hpre⟩
  · intro bt bit s u iu hu
    simp only [best_hit_step, hu]
    rcases lt_or_le u bt with h | h
    · rw [if_neg (not_le.mpr h), if_pos h]
    · rw [if_pos h, if_neg (not_lt.mpr h)]

/-- Witness for C3 on the §8 miss ray against the scene spheres. -/
theorem c3_nearest_hit_selection_witness :
    best_hit ⟨⟨0, 0, 0⟩, ⟨1, 0, 0⟩⟩ scene_spheres = none ∧
    ∀ s ∈ scene_spheres,
      sphere_ray_intersect ⟨⟨0, 0, 0⟩, ⟨1, 0, 0⟩⟩ s = none :=
  ⟨best_hit_miss_example,
   (c3_nearest_hit_selection ⟨⟨0, 0, 0⟩, ⟨1, 0, 0⟩⟩ scene_spheres).1
     best_hit_miss_example⟩

end RT
